import Mathlib

/-!
Shallow embedding of the HMS finance-management system (events, transactions,
pending change requests) and proofs about its overlay-merge engine, approval
routes and statistics.

The embedding follows the TypeScript/JavaScript source:
* data shapes from `src/types.ts` and `src/server/models.js`;
* the overlay merge from `loadEvent` in `src/pages/EventDetail.tsx`
  (lines 106-160) and `src/unnamed/part_005` (lines 69-120);
* the Express routes from the server section of `src/pages/EventDetail.tsx`
  (lines 2590-2840) and `src/unnamed/part_002`;
* the event-detail statistics from `src/unnamed/part_005` (lines 393-400).

JS numbers are modelled as `Int`, optional JS object fields as `Option`,
and MongoDB collections as Lean lists in document order.  `findOne` /
`findOneAndUpdate` / `findOneAndDelete` act on the first matching document,
modelled by `List.find?`, `modifyFirst` and `List.eraseP`.
-/

set_option autoImplicit false

namespace HMS

/-- Transaction kind: `'collection' | 'expense' | 'loan'` (src/types.ts). -/
inductive TransactionType where
  | collection
  | expense
  | loan
deriving DecidableEq, Repr

/-- A committed transaction record (`Transaction` in src/types.ts restricted to
its persisted fields, matching `TransactionSchema` in src/server/models.js).
The UI-only pending annotations (`_isPending` etc.) live on
`DisplayTransaction` below. -/
structure Transaction where
  id : String
  name : String
  amount : Int
  type : TransactionType
  image : Option String
  date : String
  description : Option String
deriving DecidableEq, Repr

/-- The `_pendingAction` values `'add' | 'update' | 'delete'` (src/types.ts). -/
inductive PendingAction where
  | add
  | update
  | delete
deriving DecidableEq, Repr

/-- `RequestType` from src/types.ts. -/
inductive RequestType where
  | create_event
  | delete_event
  | add_transaction
  | update_transaction
  | delete_transaction
deriving DecidableEq, Repr

/-- The untyped `data : any` payload of a pending request, modelled as a record
of optional fields: each JS property that some request kind stores.  A field
that the JS object does not carry is `none`.  (`originalTransaction` is the
extra field the `POST /api/requests` route attaches to `update_transaction`
payloads.) -/
structure RequestData where
  name : Option String
  eventId : Option String
  eventName : Option String
  transaction : Option Transaction
  transactionId : Option String
  transactionName : Option String
  originalTransaction : Option Transaction
deriving DecidableEq, Repr

/-- `PendingRequest` from src/types.ts / `RequestSchema` from
src/server/models.js.  `isRead = false` is the "unread" state. -/
structure PendingRequest where
  id : String
  type : RequestType
  data : RequestData
  description : String
  timestamp : String
  requestedBy : String
  isRead : Bool
deriving DecidableEq, Repr

/-- A transaction as displayed by the event-detail page: the committed fields
plus the UI-only pending annotations `_isPending`, `_requestId`,
`_pendingAction`, `_pendingData`, `_fullRequest` (src/types.ts, and
`_fullRequest` as attached by `loadEvent` in src/pages/EventDetail.tsx).
Field names drop the leading underscore. -/
structure DisplayTransaction where
  id : String
  name : String
  amount : Int
  type : TransactionType
  image : Option String
  date : String
  description : Option String
  isPending : Bool
  requestId : Option String
  pendingAction : Option PendingAction
  pendingData : Option Transaction
  fullRequest : Option PendingRequest
deriving DecidableEq, Repr

/-- A freshly fetched committed transaction, before any merge: all pending
annotations are unset (in JS they are `undefined`). -/
def wrapTx (t : Transaction) : DisplayTransaction :=
  { id := t.id, name := t.name, amount := t.amount, type := t.type,
    image := t.image, date := t.date, description := t.description,
    isPending := false, requestId := none, pendingAction := none,
    pendingData := none, fullRequest := none }

/-- The committed (persisted) fields of a display entry. -/
def committedPart (t : DisplayTransaction) : Transaction :=
  { id := t.id, name := t.name, amount := t.amount, type := t.type,
    image := t.image, date := t.date, description := t.description }

/-- Replace the first element satisfying `p` by its image under `f`
(everything else untouched).  Models the JS pattern
`const x = list.find(p); if (x) mutate(x);` as well as Mongoose
`findOneAndUpdate` / `findIndex`-then-assign, all of which act on the first
match only. -/
def modifyFirst {α : Type} (p : α → Bool) (f : α → α) : List α → List α
  | [] => []
  | x :: xs => if p x then f x :: xs else x :: modifyFirst p f xs

/-- The synthetic display entry `loadEvent` pushes for an `add_transaction`
request: `{...req.data.transaction, id: req.id, _isPending: true,
_requestId: req.id, _pendingAction: 'add', _fullRequest: req}`. -/
def mkAddEntry (req : PendingRequest) (tx : Transaction) : DisplayTransaction :=
  { id := req.id, name := tx.name, amount := tx.amount, type := tx.type,
    image := tx.image, date := tx.date, description := tx.description,
    isPending := true, requestId := some req.id,
    pendingAction := some PendingAction.add, pendingData := none,
    fullRequest := some req }

/-- In-place flagging of an existing entry by an `update_transaction` request
(`loadEvent`): sets `_isPending`, `_requestId`, `_pendingAction = 'update'`,
`_pendingData`, `_fullRequest`; the displayed committed fields are untouched. -/
def flagUpdate (req : PendingRequest) (tx : Transaction)
    (t : DisplayTransaction) : DisplayTransaction :=
  { t with isPending := true, requestId := some req.id,
           pendingAction := some PendingAction.update,
           pendingData := some tx, fullRequest := some req }

/-- In-place flagging of an existing entry by a `delete_transaction` request
(`loadEvent`): sets `_isPending`, `_requestId`, `_pendingAction = 'delete'`,
`_fullRequest`; note that `_pendingData` is not touched. -/
def flagDelete (req : PendingRequest) (t : DisplayTransaction) :
    DisplayTransaction :=
  { t with isPending := true, requestId := some req.id,
           pendingAction := some PendingAction.delete,
           fullRequest := some req }

/-- One iteration of the `pendingRequests.forEach` body of `loadEvent`.
`add_transaction` pushes a synthetic entry; `update_transaction` /
`delete_transaction` flag the first entry whose id matches the payload's
target; other request kinds fall through.  A transaction-kind request whose
payload lacks its target field is skipped (in JS such a malformed payload
would throw before producing any view). -/
def mergeStep (acc : List DisplayTransaction) (req : PendingRequest) :
    List DisplayTransaction :=
  match req.type with
  | RequestType.add_transaction =>
    match req.data.transaction with
    | some tx => acc ++ [mkAddEntry req tx]
    | none => acc
  | RequestType.update_transaction =>
    match req.data.transaction with
    | some tx => modifyFirst (fun t => t.id == tx.id) (flagUpdate req tx) acc
    | none => acc
  | RequestType.delete_transaction =>
    match req.data.transactionId with
    | some txId => modifyFirst (fun t => t.id == txId) (flagDelete req) acc
    | none => acc
  | _ => acc

/-- The overlay merge of `loadEvent`: starting from the event's committed
transactions (`[...data.transactions]` — a shallow copy sharing the record
objects), fold the pending requests over it **in the order the queue returned
them** (`forEach`; there is no sort). -/
def mergeForEvent (committed : List DisplayTransaction)
    (requests : List PendingRequest) : List DisplayTransaction :=
  requests.foldl mergeStep committed

/-- The state of the event's own transaction records after a merge.  Because
`[...data.transactions]` is a shallow copy, the first `committed.length`
entries of the merged list are the very objects of `data.transactions`, and
the in-place flagging of `loadEvent` mutates them; this prefix is therefore
the post-merge content of the event's in-memory transaction array. -/
def mergedCommittedRecords (committed : List DisplayTransaction)
    (requests : List PendingRequest) : List DisplayTransaction :=
  (mergeForEvent committed requests).take committed.length

/-- `EventData` from src/types.ts / `EventSchema` from src/server/models.js. -/
structure EventData where
  id : String
  name : String
  isDeleted : Bool
  transactions : List Transaction
deriving DecidableEq, Repr

/-- The two persistent collections of the backend: the committed store
(`Event` documents) and the request queue (`Request` documents), in document
order. -/
structure ServerState where
  events : List EventData
  requests : List PendingRequest
deriving DecidableEq, Repr

/-- `GET /api/events` (`Event.find({isDeleted: false})`) for `deleted = false`
and `GET /api/events/deleted` (`Event.find({isDeleted: true})`) for
`deleted = true`. -/
def findEvents (s : ServerState) (deleted : Bool) : List EventData :=
  s.events.filter (fun e => e.isDeleted == deleted)

/-- `PUT /api/events/:id/delete`:
`Event.findOneAndUpdate({id}, {isDeleted: true})`. -/
def softDeleteEvent (s : ServerState) (eventId : String) : ServerState :=
  let evs := modifyFirst (fun e => e.id == eventId)
    (fun e => { e with isDeleted := true }) s.events
  { s with events := evs }

/-- Whether `sep` is a prefix of `cs`. -/
def isPrefixCh : List Char → List Char → Bool
  | [], _ => true
  | _ :: _, [] => false
  | a :: as, b :: bs => a == b && isPrefixCh as bs

/-- Index of the first occurrence of the pattern `sep` in `cs`, if any
(structural so that it evaluates inside the kernel; `String.splitOn` does
not). -/
def firstOccIdx (sep cs : List Char) : Option Nat :=
  (List.range (cs.length + 1)).find? (fun i => isPrefixCh sep (cs.drop i))

/-- Whether a JS string `s` contains `pat` as a substring
(`s.includes(pat)`). -/
def containsSubstr (s pat : String) : Bool :=
  (firstOccIdx pat.data s.data).isSome

/-- The characters of `s` after the first occurrence of `pat`, if any. -/
def afterFirstOcc (s pat : String) : Option (List Char) :=
  (firstOccIdx pat.data s.data).map (fun i => s.data.drop (i + pat.data.length))

/-- Strip a leading Cloudinary version segment `v<digits>/` (the optional
group `(?:v\d+\/)?` of the extraction regex), if present. -/
def dropVersionSeg (cs : List Char) : Option (List Char) :=
  match cs with
  | 'v' :: rest =>
    let digits := rest.takeWhile Char.isDigit
    let after := rest.dropWhile Char.isDigit
    if digits.length > 0 then
      match after with
      | '/' :: tail => some tail
      | _ => none
    else none
  | _ => none

/-- The `(.+)\.[^.]+$` tail of the extraction regex: everything before the
last dot, provided both that part and the extension after the last dot are
nonempty. -/
def lastDotSplit (cs : List Char) : Option (List Char) :=
  match cs.reverse.findIdx? (fun c => c == '.') with
  | none => none
  | some j =>
    let pid := cs.take (cs.length - j - 1)
    if pid.isEmpty || j == 0 then none else some pid

/-- Strategy 1 of the public-id extraction in `DELETE /api/events/:id`
(src/pages/EventDetail.tsx): the regex
`\/upload\/(?:v\d+\/)?(.+)\.[^.]+$` applied at the first `/upload/`
occurrence (the version group is dropped when stripping it would make the
match fail, mirroring regex backtracking). -/
def strategyUpload (url : String) : Option String :=
  (afterFirstOcc url "/upload/").bind fun rest =>
    match dropVersionSeg rest with
    | some stripped =>
      match lastDotSplit stripped with
      | some pid => some (String.mk pid)
      | none => (lastDotSplit rest).map String.mk
    | none => (lastDotSplit rest).map String.mk

/-- Strategy 2 (fallback): `tx.image.split('/hms/')[1].split('.')[0]`
prefixed with `hms/`, used when the URL mentions `/hms/` (the `[1]` segment
is the text between the first and the following occurrence of `/hms/`). -/
def strategyHms (url : String) : Option String :=
  (afterFirstOcc url "/hms/").map fun afterHms =>
    let seg := afterHms.take
      ((firstOccIdx "/hms/".data afterHms).getD afterHms.length)
    "hms/" ++ String.mk (seg.takeWhile (fun c => !(c == '.')))

/-- Full public-id extraction of `DELETE /api/events/:id`: strategy 1, then
the `/hms/` fallback. -/
def extractPublicId (url : String) : Option String :=
  match strategyUpload url with
  | some pid => some pid
  | none => strategyHms url

/-- The image release a transaction triggers on event purge: the route
attempts a Cloudinary destroy exactly when the transaction has an image whose
URL mentions `cloudinary.com` and a public id can be extracted. -/
def releaseOf (t : Transaction) : Option String :=
  match t.image with
  | some img => if containsSubstr img "cloudinary.com" then extractPublicId img else none
  | none => none

/-- The public ids the purge route destroys for an event (the
`imageDeletionPromises` loop of `DELETE /api/events/:id` in
src/pages/EventDetail.tsx). -/
def releasedImages (e : EventData) : List String :=
  e.transactions.filterMap releaseOf

/-- `DELETE /api/events/:id` (src/pages/EventDetail.tsx, lines 2644-2704):
look the event up; if found, destroy its transactions' Cloudinary images and
`findOneAndDelete` it.  Returns the new state and the released public ids. -/
def purgeEvent (s : ServerState) (eventId : String) :
    ServerState × List String :=
  match s.events.find? (fun e => e.id == eventId) with
  | some e =>
    ({ s with events := s.events.eraseP (fun e => e.id == eventId) },
     releasedImages e)
  | none => (s, [])

/-- What an API route reports to the caller.  `success` is
`res.json({success: true})`; `notFoundEvent` is
`res.status(404).json({error: 'Event not found'})`. -/
inductive RouteResult where
  | success
  | notFoundEvent
deriving DecidableEq, Repr

/-- The JSON body of `PUT /api/events/:id/transactions/:txId`: an arbitrary
subset of transaction fields (absent JS keys are `none`). -/
structure TxUpdateBody where
  id : Option String
  name : Option String
  amount : Option Int
  type : Option TransactionType
  image : Option String
  date : Option String
  description : Option String
deriving DecidableEq, Repr

/-- The JS spread `{...existing.toObject(), ...body}`: every field present in
the body overrides, every absent field keeps the stored value. -/
def applyBody (t : Transaction) (b : TxUpdateBody) : Transaction :=
  { id := b.id.getD t.id, name := b.name.getD t.name,
    amount := b.amount.getD t.amount, type := b.type.getD t.type,
    image := match b.image with | some v => some v | none => t.image,
    date := b.date.getD t.date,
    description := match b.description with | some v => some v | none => t.description }

/-- The effect of `PUT /api/events/:id/transactions/:txId` on the matched
event: `findIndex` the transaction, and if present overwrite that slot with
the field merge; if absent, do nothing. -/
def replaceTxInEvent (e : EventData) (txId : String) (b : TxUpdateBody) :
    EventData :=
  let txs := modifyFirst (fun t => t.id == txId) (fun t => applyBody t b)
    e.transactions
  { e with transactions := txs }

/-- `PUT /api/events/:id/transactions/:txId` (src/pages/EventDetail.tsx,
lines 2720-2734): 404 if the event is missing; otherwise merge-replace the
transaction if its id occurs, and answer `{success: true}` whether or not it
did. -/
def replaceTransaction (s : ServerState) (eventId txId : String)
    (b : TxUpdateBody) : ServerState × RouteResult :=
  match s.events.find? (fun e => e.id == eventId) with
  | none => (s, RouteResult.notFoundEvent)
  | some _ =>
    let evs := modifyFirst (fun e => e.id == eventId)
      (fun e => replaceTxInEvent e txId b) s.events
    ({ s with events := evs }, RouteResult.success)

/-- `DELETE /api/requests/:id`: `Request.findOneAndDelete({id})`.  Used both
for rejection (by the admin) and cancellation (by the proposer). -/
def deleteRequest (s : ServerState) (requestId : String) : ServerState :=
  { s with requests := s.requests.eraseP (fun r => r.id == requestId) }

/-- `POST /api/requests/mark-read`:
`Request.updateMany({}, {isRead: true})`. -/
def markAllRead (s : ServerState) : ServerState :=
  { s with requests := s.requests.map (fun r => { r with isRead := true }) }

/-- The payload enrichment of `POST /api/requests` (src/pages/EventDetail.tsx,
lines 2792-2813): for an `update_transaction` request with an event id and a
transaction, the original committed transaction is stored alongside. -/
def enrichRequest (events : List EventData) (r : PendingRequest) :
    PendingRequest :=
  if r.type == RequestType.update_transaction then
    match r.data.eventId, r.data.transaction with
    | some eventId, some tx =>
      match events.find? (fun e => e.id == eventId) with
      | some ev =>
        match ev.transactions.find? (fun t => t.id == tx.id) with
        | some orig =>
          { r with data := { r.data with originalTransaction := some orig } }
        | none => r
      | none => r
    | _, _ => r
  else r

/-- `POST /api/requests`: enrich and `Request.create` the submitted request.
The client (services/db, not part of src/) sends no `isRead` key, so the
schema default `isRead: false` of src/server/models.js applies: a new request
is born unread. -/
def createRequest (s : ServerState) (r : PendingRequest) : ServerState :=
  let newReq := { enrichRequest s.events r with isRead := false }
  { s with requests := s.requests ++ [newReq] }

/-- Modelled from the spec: the client-side `getUnreadRequestCount` of
services/db is not part of src/; §4.4 defines it as the count of requests
with unread = true, i.e. `isRead = false`. -/
def unreadCount (s : ServerState) : Nat :=
  (s.requests.filter (fun r => r.isRead == false)).length

/-- The replacement that `PUT /api/requests/:id` applies to the matched
request document.  The route (`Request.findOneAndUpdate({id}, req.body)`) is
in src and sets exactly the provided fields; the body construction lives in
services/db, which is not part of src/, and is modelled from the spec
(§4.3): `editPending` replaces only payload and description, bumps the
timestamp and resets unread to false, and sends neither `type` nor
`requestedBy`, so `findOneAndUpdate` leaves those as stored. -/
def editedRequest (r : PendingRequest) (newData : RequestData)
    (newDescription newTimestamp : String) : PendingRequest :=
  { r with data := newData, description := newDescription,
           timestamp := newTimestamp, isRead := false }

def editPending (s : ServerState) (requestId : String) (newData : RequestData)
    (newDescription newTimestamp : String) : ServerState :=
  let rs := modifyFirst (fun r => r.id == requestId)
    (fun r => editedRequest r newData newDescription newTimestamp) s.requests
  { s with requests := rs }

/-- The `committedTx` filter of the event-detail statistics
(src/unnamed/part_005, line 396): keep an entry unless it is a pending add
(`!t._isPending || t._pendingAction !== 'add'`). -/
def committedTx (l : List DisplayTransaction) : List DisplayTransaction :=
  l.filter (fun t => !t.isPending || !(t.pendingAction == some PendingAction.add))

/-- `reduce((a, t) => a + t.amount, 0)`. -/
def sumAmounts (l : List DisplayTransaction) : Int :=
  l.foldl (fun a t => a + t.amount) 0

/-- `coll` of the event-detail statistics (src/unnamed/part_005, line 397). -/
def evColl (l : List DisplayTransaction) : Int :=
  sumAmounts ((committedTx l).filter (fun t => t.type == TransactionType.collection))

/-- `exp` of the event-detail statistics (line 398). -/
def evExp (l : List DisplayTransaction) : Int :=
  sumAmounts ((committedTx l).filter (fun t => t.type == TransactionType.expense))

/-- `loan` of the event-detail statistics (line 399). -/
def evLoan (l : List DisplayTransaction) : Int :=
  sumAmounts ((committedTx l).filter (fun t => t.type == TransactionType.loan))

/-- `bal = coll - exp` — "Balance excludes loan" (line 400). -/
def evBal (l : List DisplayTransaction) : Int :=
  evColl l - evExp l

/-! ### Analysis helpers for the overlay merge

The following definitions are not part of the source; they re-express the
effect of `mergeForEvent` on a single display entry so that its behaviour can
be characterised entry by entry. -/

/-- Whether a request addresses the transaction id `x` in the merge: an
`update_transaction` whose payload transaction has id `x`, or a
`delete_transaction` whose payload `transactionId` is `x`. -/
def targetsId (req : PendingRequest) (x : String) : Bool :=
  match req.type with
  | RequestType.update_transaction =>
    match req.data.transaction with
    | some tx => x == tx.id
    | none => false
  | RequestType.delete_transaction =>
    match req.data.transactionId with
    | some i => x == i
    | none => false
  | _ => false

/-- The effect of one request on one display entry (assuming the entry is the
first one carrying its id): flag it if the request addresses its id, leave it
alone otherwise. -/
def flagStep (t : DisplayTransaction) (req : PendingRequest) :
    DisplayTransaction :=
  match req.type with
  | RequestType.update_transaction =>
    match req.data.transaction with
    | some tx => if t.id == tx.id then flagUpdate req tx t else t
    | none => t
  | RequestType.delete_transaction =>
    match req.data.transactionId with
    | some i => if t.id == i then flagDelete req t else t
    | none => t
  | _ => t

/-- The cumulative effect of a request list on one display entry. -/
def flagFold (t : DisplayTransaction) (reqs : List PendingRequest) :
    DisplayTransaction :=
  reqs.foldl flagStep t

/-- The `_pendingAction` a targeting request writes. -/
def pendActionOf (req : PendingRequest) : Option PendingAction :=
  match req.type with
  | RequestType.update_transaction => some PendingAction.update
  | RequestType.delete_transaction => some PendingAction.delete
  | _ => none

/-- The `_pendingData` contribution of a single request to the entry with id
`x`: its payload transaction, if it is an update addressing `x`. -/
def updEntry (x : String) (r : PendingRequest) : Option Transaction :=
  match r.type with
  | RequestType.update_transaction =>
    match r.data.transaction with
    | some tx => if x == tx.id then some tx else none
    | none => none
  | _ => none

/-- The payload of the last update request addressing `x`, if any. -/
def lastUpdTx (x : String) (reqs : List PendingRequest) : Option Transaction :=
  (reqs.filterMap (updEntry x)).getLast?

/-- The flag state a last addressing request `r` leaves on an entry `t`, with
`pd` the resulting `_pendingData`. -/
def applyLast (t : DisplayTransaction) (r : PendingRequest)
    (pd : Option Transaction) : DisplayTransaction :=
  { t with isPending := true, requestId := some r.id,
           pendingAction := pendActionOf r,
           pendingData := pd, fullRequest := some r }

/-- Closed form of `flagFold`: the entry is untouched if no request addresses
its id; otherwise the last addressing request determines the flags, and the
last addressing update (if any) determines `_pendingData`. -/
def flagSpec (t : DisplayTransaction) (reqs : List PendingRequest) :
    DisplayTransaction :=
  match (reqs.filter (fun r => targetsId r t.id)).getLast? with
  | none => t
  | some r =>
    applyLast t r
      (match lastUpdTx t.id reqs with
       | some tx => some tx
       | none => t.pendingData)

/-- One merge step restricted to the suffix of the display list beyond the
committed records: requests whose target id lives among the committed ids
(`prefixIds`) act on the prefix and leave the suffix alone; adds and requests
targeting synthetic ids act on the suffix. -/
def suffixStep (prefixIds : List String) (acc : List DisplayTransaction)
    (req : PendingRequest) : List DisplayTransaction :=
  match req.type with
  | RequestType.add_transaction =>
    match req.data.transaction with
    | some tx => acc ++ [mkAddEntry req tx]
    | none => acc
  | RequestType.update_transaction =>
    match req.data.transaction with
    | some tx =>
      if tx.id ∈ prefixIds then acc
      else modifyFirst (fun t => t.id == tx.id) (flagUpdate req tx) acc
    | none => acc
  | RequestType.delete_transaction =>
    match req.data.transactionId with
    | some i =>
      if i ∈ prefixIds then acc
      else modifyFirst (fun t => t.id == i) (flagDelete req) acc
    | none => acc
  | _ => acc

/-- Folding `suffixStep` over the requests. -/
def suffixFold (prefixIds : List String) (acc : List DisplayTransaction)
    (reqs : List PendingRequest) : List DisplayTransaction :=
  reqs.foldl (suffixStep prefixIds) acc

/-- The update or delete target of a request, when it has one. -/
def reqTargetId (req : PendingRequest) : Option String :=
  match req.type with
  | RequestType.update_transaction => req.data.transaction.map (fun tx => tx.id)
  | RequestType.delete_transaction => req.data.transactionId
  | _ => none

/-! ### Concrete instances used by counterexamples and witnesses -/

/-- A committed collection transaction with id `"a"`. -/
def cexTxA : Transaction :=
  { id := "a", name := "Tickets", amount := 500,
    type := TransactionType.collection, image := none,
    date := "2024-05-01", description := none }

/-- First proposed replacement for `"a"`. -/
def cexTx1 : Transaction :=
  { cexTxA with name := "v1", amount := 100 }

/-- Second proposed replacement for `"a"`. -/
def cexTx2 : Transaction :=
  { cexTxA with name := "v2", amount := 200 }

/-- An `update_transaction` payload for event `"e1"`. -/
def updPayload (tx : Transaction) : RequestData :=
  { name := none, eventId := some "e1", eventName := some "Ev",
    transaction := some tx, transactionId := none, transactionName := none,
    originalTransaction := none }

/-- Update request submitted first (earlier timestamp `t1`). -/
def cexUpd1 : PendingRequest :=
  { id := "r1", type := RequestType.update_transaction,
    data := updPayload cexTx1, description := "upd v1",
    timestamp := "2024-01-01T10:00:00", requestedBy := "assi",
    isRead := false }

/-- Update request submitted second (later timestamp `t2`), addressing the
same transaction id `"a"`. -/
def cexUpd2 : PendingRequest :=
  { id := "r2", type := RequestType.update_transaction,
    data := updPayload cexTx2, description := "upd v2",
    timestamp := "2024-01-02T10:00:00", requestedBy := "assi",
    isRead := false }

/-- An update request whose target id `"zz"` matches no transaction. -/
def cexOrphan : PendingRequest :=
  { id := "r9", type := RequestType.update_transaction,
    data := updPayload { cexTx1 with id := "zz" },
    description := "orphan", timestamp := "2024-01-03T10:00:00",
    requestedBy := "assi", isRead := false }

/-- A transaction holding a Cloudinary receipt image. -/
def cexTxImg : Transaction :=
  { id := "b", name := "Catering", amount := 300,
    type := TransactionType.expense,
    image := some "https://res.cloudinary.com/demo/image/upload/v17/hms/rcpt.jpg",
    date := "2024-05-02", description := none }

/-- An event holding both concrete transactions. -/
def cexEvent : EventData :=
  { id := "e1", name := "Annual Fair", isDeleted := false,
    transactions := [cexTxA, cexTxImg] }

/-- A second event, untouched by the scenarios. -/
def cexEvent2 : EventData :=
  { id := "e2", name := "Picnic", isDeleted := false, transactions := [] }

/-- A pending delete-event request sitting in the queue. -/
def cexDelReq : PendingRequest :=
  { id := "r5", type := RequestType.delete_event,
    data := { name := none, eventId := some "e1",
              eventName := some "Annual Fair", transaction := none,
              transactionId := none, transactionName := none,
              originalTransaction := none },
    description := "del e1", timestamp := "2024-01-04T10:00:00",
    requestedBy := "assi", isRead := true }

/-- A concrete server state with two events and two queued requests. -/
def cexState : ServerState :=
  { events := [cexEvent, cexEvent2], requests := [cexUpd1, cexDelReq] }

/-- An update body that changes only the amount and description. -/
def cexBody : TxUpdateBody :=
  { id := none, name := none, amount := some 750,
    type := none, image := none, date := none,
    description := some "adjusted" }

/-- The transaction a proposer wants added: a 999 PKR collection. -/
def cexAddTx : Transaction :=
  { cexTxA with id := "", name := "Donation box", amount := 999 }

/-- An `add_transaction` request proposing `cexAddTx`. -/
def cexAddReq : PendingRequest :=
  { id := "r7", type := RequestType.add_transaction,
    data := updPayload cexAddTx,
    description := "add donation", timestamp := "2024-01-05T10:00:00",
    requestedBy := "assi", isRead := false }

/-- A committed 200 PKR loan. -/
def cexTxLoan : Transaction :=
  { cexTxA with id := "l1", amount := 200, type := TransactionType.loan }

/-- A display list with committed collections 1000 + 500, a committed expense
of 400, a committed loan of 200, and one pending add worth 999. -/
def cexStatsList : List DisplayTransaction :=
  [wrapTx { cexTxA with id := "c1", amount := 1000 },
   wrapTx { cexTxA with id := "c2", amount := 500 },
   wrapTx { cexTxImg with id := "x1", amount := 400 },
   wrapTx cexTxLoan,
   mkAddEntry cexAddReq cexAddTx]

/-! ### Basic lemmas -/

theorem flagStep_id (t : DisplayTransaction) (req : PendingRequest) :
    (flagStep t req).id = t.id := by
  unfold flagStep
  repeat' split
  all_goals rfl

theorem flagStep_committedPart (t : DisplayTransaction) (req : PendingRequest) :
    committedPart (flagStep t req) = committedPart t := by
  unfold flagStep
  repeat' split
  all_goals rfl

theorem flagFold_id (reqs : List PendingRequest) :
    ∀ t : DisplayTransaction, (flagFold t reqs).id = t.id := by
  induction reqs with
  | nil => intro t; rfl
  | cons r rs ih =>
    intro t
    have : flagFold t (r :: rs) = flagFold (flagStep t r) rs := rfl
    rw [this, ih, flagStep_id]

theorem flagFold_committedPart (reqs : List PendingRequest) :
    ∀ t : DisplayTransaction,
      committedPart (flagFold t reqs) = committedPart t := by
  induction reqs with
  | nil => intro t; rfl
  | cons r rs ih =>
    intro t
    have : flagFold t (r :: rs) = flagFold (flagStep t r) rs := rfl
    rw [this, ih, flagStep_committedPart]

theorem flagStep_of_not_targets {t : DisplayTransaction}
    {req : PendingRequest} (h : targetsId req t.id = false) :
    flagStep t req = t := by
  cases hty : req.type
  case update_transaction =>
    cases htx : req.data.transaction with
    | none => simp [flagStep, hty, htx]
    | some tx =>
      simp only [targetsId, hty, htx] at h
      simp [flagStep, hty, htx, h]
  case delete_transaction =>
    cases hti : req.data.transactionId with
    | none => simp [flagStep, hty, hti]
    | some i =>
      simp only [targetsId, hty, hti] at h
      simp [flagStep, hty, hti, h]
  all_goals simp [flagStep, hty]

theorem updEntry_of_not_targets {x : String} {r : PendingRequest}
    (h : targetsId r x = false) : updEntry x r = none := by
  cases hty : r.type
  case update_transaction =>
    cases htx : r.data.transaction with
    | none => simp [updEntry, hty, htx]
    | some tx =>
      simp only [targetsId, hty, htx] at h
      simp [updEntry, hty, htx, h]
  all_goals simp [updEntry, hty]

theorem modifyFirst_of_any {α : Type} (p : α → Bool) (f : α → α)
    (A B : List α) (h : A.any p = true) :
    modifyFirst p f (A ++ B) = modifyFirst p f A ++ B := by
  induction A with
  | nil => simp at h
  | cons a as ih =>
    by_cases hp : p a
    · simp [modifyFirst, hp]
    · simp only [List.any_cons, Bool.or_eq_true] at h
      rcases h with h | h
      · exact absurd h hp
      · simp [modifyFirst, hp, ih h]

theorem modifyFirst_of_not_any {α : Type} (p : α → Bool) (f : α → α)
    (A B : List α) (h : A.any p = false) :
    modifyFirst p f (A ++ B) = A ++ modifyFirst p f B := by
  induction A with
  | nil => rfl
  | cons a as ih =>
    simp only [List.any_cons, Bool.or_eq_false_iff] at h
    simp [modifyFirst, h.1, ih h.2]

theorem modifyFirst_eq_self {α : Type} (p : α → Bool) (f : α → α)
    (l : List α) (h : l.any p = false) : modifyFirst p f l = l := by
  induction l with
  | nil => rfl
  | cons a as ih =>
    simp only [List.any_cons, Bool.or_eq_false_iff] at h
    simp [modifyFirst, h.1, ih h.2]

theorem any_id_eq_mem {α : Type} (key : α → String) (x : String)
    (l : List α) : (l.any fun t => key t == x) = true ↔ x ∈ l.map key := by
  simp only [List.any_eq_true, beq_iff_eq, List.mem_map]

theorem modifyFirst_eq_map_of_nodup {α : Type} (key : α → String)
    (x : String) (f : α → α) (l : List α) (h : (l.map key).Nodup) :
    modifyFirst (fun t => key t == x) f l
      = l.map (fun t => if key t == x then f t else t) := by
  induction l with
  | nil => rfl
  | cons a as ih =>
    simp only [List.map_cons, List.nodup_cons] at h
    by_cases hx : key a = x
    · have hother : ∀ t ∈ as, (key t == x) = false := by
        intro t ht
        rw [beq_eq_false_iff_ne]
        intro hcontra
        exact h.1 (by
          have : key a ∈ as.map key := by
            rw [hx, ← hcontra]
            exact List.mem_map_of_mem key ht
          exact this)
      have hba : (key a == x) = true := by simp [hx]
      simp only [modifyFirst, hba, if_true, List.map_cons]
      congr 1
      exact (calc
          as.map (fun t => if (key t == x) = true then f t else t)
            = as.map id := List.map_congr_left (fun t ht => by simp [hother t ht])
          _ = as := List.map_id as).symm
    · have hbeq : (key a == x) = false := by simp [hx]
      simp only [modifyFirst, hbeq, Bool.false_eq_true, if_false,
        List.map_cons, ih h.2]

/-- Decomposition of the merge: when the committed prefix `A` has pairwise
distinct ids, the merge acts on it pointwise (via `flagFold`), and the rest
of the requests build and flag the appended suffix independently. -/
theorem merge_decomp (reqs : List PendingRequest) :
    ∀ (A B : List DisplayTransaction),
      ((A.map (fun t => t.id)).Nodup) →
      mergeForEvent (A ++ B) reqs
        = A.map (fun t => flagFold t reqs)
          ++ suffixFold (A.map (fun t => t.id)) B reqs := by
  induction reqs with
  | nil =>
    intro A B _
    simp [mergeForEvent, suffixFold, flagFold]
  | cons r rs ih =>
    intro A B hnd
    have hstep : mergeForEvent (A ++ B) (r :: rs)
        = mergeForEvent (mergeStep (A ++ B) r) rs := rfl
    have hflag : A.map (fun t => flagFold t (r :: rs))
        = A.map (fun t => flagFold (flagStep t r) rs) := rfl
    have hsuf : suffixFold (A.map (fun t => t.id)) B (r :: rs)
        = suffixFold (A.map (fun t => t.id))
            (suffixStep (A.map (fun t => t.id)) B r) rs := rfl
    rw [hstep, hflag, hsuf]
    cases hty : r.type
    case add_transaction =>
      cases htx : r.data.transaction with
      | none =>
        have h1 : mergeStep (A ++ B) r = A ++ B := by
          simp [mergeStep, hty, htx]
        have h2 : suffixStep (A.map (fun t => t.id)) B r = B := by
          simp [suffixStep, hty, htx]
        have h3 : ∀ t ∈ A, flagStep t r = t := fun t _ => by
          simp [flagStep, hty]
        rw [h1, h2, ih A B hnd]
        congr 1
        exact List.map_congr_left (fun t ht => by rw [h3 t ht])
      | some tx =>
        have h1 : mergeStep (A ++ B) r = A ++ (B ++ [mkAddEntry r tx]) := by
          simp [mergeStep, hty, htx]
        have h2 : suffixStep (A.map (fun t => t.id)) B r
            = B ++ [mkAddEntry r tx] := by
          simp [suffixStep, hty, htx]
        have h3 : ∀ t ∈ A, flagStep t r = t := fun t _ => by
          simp [flagStep, hty]
        rw [h1, h2, ih A _ hnd]
        congr 1
        exact List.map_congr_left (fun t ht => by rw [h3 t ht])
    case update_transaction =>
      cases htx : r.data.transaction with
      | none =>
        have h1 : mergeStep (A ++ B) r = A ++ B := by
          simp [mergeStep, hty, htx]
        have h2 : suffixStep (A.map (fun t => t.id)) B r = B := by
          simp [suffixStep, hty, htx]
        have h3 : ∀ t ∈ A, flagStep t r = t := fun t _ => by
          simp [flagStep, hty, htx]
        rw [h1, h2, ih A B hnd]
        congr 1
        exact List.map_congr_left (fun t ht => by rw [h3 t ht])
      | some tx =>
        by_cases hmem : tx.id ∈ A.map (fun t => t.id)
        · have hany : (A.any fun t => t.id == tx.id) = true :=
            (any_id_eq_mem _ _ _).2 hmem
          have h1 : mergeStep (A ++ B) r
              = modifyFirst (fun t => t.id == tx.id) (flagUpdate r tx) A ++ B := by
            simp only [mergeStep, hty, htx]
            exact modifyFirst_of_any _ _ A B hany
          have hmapA : modifyFirst (fun t => t.id == tx.id) (flagUpdate r tx) A
              = A.map (fun t => if t.id == tx.id then flagUpdate r tx t else t) :=
            modifyFirst_eq_map_of_nodup (fun t => t.id) tx.id _ A hnd
          have hidsA2 : ((A.map
                (fun t => if t.id == tx.id then flagUpdate r tx t else t)).map
              (fun t => t.id)) = A.map (fun t => t.id) := by
            rw [List.map_map]
            exact List.map_congr_left (fun t _ => by
              by_cases hc : t.id = tx.id <;> simp [hc, flagUpdate])
          have hnd2 : (((A.map
                (fun t => if t.id == tx.id then flagUpdate r tx t else t)).map
              (fun t => t.id))).Nodup := by
            rw [hidsA2]; exact hnd
          have h2 : suffixStep (A.map (fun t => t.id)) B r = B := by
            simp [suffixStep, hty, htx, hmem]
          rw [h1, hmapA, h2, ih _ B hnd2, hidsA2]
          congr 1
          rw [List.map_map]
          exact List.map_congr_left (fun t _ => by
            simp only [Function.comp_apply, flagStep, hty, htx])
        · have hany : (A.any fun t => t.id == tx.id) = false := by
            rw [← Bool.not_eq_true]
            exact fun hc => hmem ((any_id_eq_mem _ _ _).1 hc)
          have h1 : mergeStep (A ++ B) r
              = A ++ modifyFirst (fun t => t.id == tx.id) (flagUpdate r tx) B := by
            simp only [mergeStep, hty, htx]
            exact modifyFirst_of_not_any _ _ A B hany
          have h2 : suffixStep (A.map (fun t => t.id)) B r
              = modifyFirst (fun t => t.id == tx.id) (flagUpdate r tx) B := by
            simp [suffixStep, hty, htx, hmem]
          have h3 : ∀ t ∈ A, flagStep t r = t := by
            intro t ht
            apply flagStep_of_not_targets
            simp only [targetsId, hty, htx]
            rw [beq_eq_false_iff_ne]
            intro hc
            exact hmem (hc ▸ List.mem_map_of_mem (fun t => t.id) ht)
          rw [h1, h2, ih A _ hnd]
          congr 1
          exact List.map_congr_left (fun t ht => by rw [h3 t ht])
    case delete_transaction =>
      cases hti : r.data.transactionId with
      | none =>
        have h1 : mergeStep (A ++ B) r = A ++ B := by
          simp [mergeStep, hty, hti]
        have h2 : suffixStep (A.map (fun t => t.id)) B r = B := by
          simp [suffixStep, hty, hti]
        have h3 : ∀ t ∈ A, flagStep t r = t := fun t _ => by
          simp [flagStep, hty, hti]
        rw [h1, h2, ih A B hnd]
        congr 1
        exact List.map_congr_left (fun t ht => by rw [h3 t ht])
      | some i =>
        by_cases hmem : i ∈ A.map (fun t => t.id)
        · have hany : (A.any fun t => t.id == i) = true :=
            (any_id_eq_mem _ _ _).2 hmem
          have h1 : mergeStep (A ++ B) r
              = modifyFirst (fun t => t.id == i) (flagDelete r) A ++ B := by
            simp only [mergeStep, hty, hti]
            exact modifyFirst_of_any _ _ A B hany
          have hmapA : modifyFirst (fun t => t.id == i) (flagDelete r) A
              = A.map (fun t => if t.id == i then flagDelete r t else t) :=
            modifyFirst_eq_map_of_nodup (fun t => t.id) i _ A hnd
          have hidsA2 : ((A.map
                (fun t => if t.id == i then flagDelete r t else t)).map
              (fun t => t.id)) = A.map (fun t => t.id) := by
            rw [List.map_map]
            exact List.map_congr_left (fun t _ => by
              by_cases hc : t.id = i <;> simp [hc, flagDelete])
          have hnd2 : (((A.map
                (fun t => if t.id == i then flagDelete r t else t)).map
              (fun t => t.id))).Nodup := by
            rw [hidsA2]; exact hnd
          have h2 : suffixStep (A.map (fun t => t.id)) B r = B := by
            simp [suffixStep, hty, hti, hmem]
          rw [h1, hmapA, h2, ih _ B hnd2, hidsA2]
          congr 1
          rw [List.map_map]
          exact List.map_congr_left (fun t _ => by
            simp only [Function.comp_apply, flagStep, hty, hti])
        · have hany : (A.any fun t => t.id == i) = false := by
            rw [← Bool.not_eq_true]
            exact fun hc => hmem ((any_id_eq_mem _ _ _).1 hc)
          have h1 : mergeStep (A ++ B) r
              = A ++ modifyFirst (fun t => t.id == i) (flagDelete r) B := by
            simp only [mergeStep, hty, hti]
            exact modifyFirst_of_not_any _ _ A B hany
          have h2 : suffixStep (A.map (fun t => t.id)) B r
              = modifyFirst (fun t => t.id == i) (flagDelete r) B := by
            simp [suffixStep, hty, hti, hmem]
          have h3 : ∀ t ∈ A, flagStep t r = t := by
            intro t ht
            apply flagStep_of_not_targets
            simp only [targetsId, hty, hti]
            rw [beq_eq_false_iff_ne]
            intro hc
            exact hmem (hc ▸ List.mem_map_of_mem (fun t => t.id) ht)
          rw [h1, h2, ih A _ hnd]
          congr 1
          exact List.map_congr_left (fun t ht => by rw [h3 t ht])
    case create_event =>
      have h1 : mergeStep (A ++ B) r = A ++ B := by simp [mergeStep, hty]
      have h2 : suffixStep (A.map (fun t => t.id)) B r = B := by
        simp [suffixStep, hty]
      have h3 : ∀ t ∈ A, flagStep t r = t := fun t _ => by simp [flagStep, hty]
      rw [h1, h2, ih A B hnd]
      congr 1
      exact List.map_congr_left (fun t ht => by rw [h3 t ht])
    case delete_event =>
      have h1 : mergeStep (A ++ B) r = A ++ B := by simp [mergeStep, hty]
      have h2 : suffixStep (A.map (fun t => t.id)) B r = B := by
        simp [suffixStep, hty]
      have h3 : ∀ t ∈ A, flagStep t r = t := fun t _ => by simp [flagStep, hty]
      rw [h1, h2, ih A B hnd]
      congr 1
      exact List.map_congr_left (fun t ht => by rw [h3 t ht])

theorem mergeForEvent_eq_append (dl : List DisplayTransaction)
    (reqs : List PendingRequest) (h : ((dl.map (fun t => t.id)).Nodup)) :
    mergeForEvent dl reqs
      = dl.map (fun t => flagFold t reqs)
        ++ suffixFold (dl.map (fun t => t.id)) [] reqs := by
  have hd := merge_decomp reqs dl [] h
  rwa [List.append_nil] at hd

/-- Under unique committed ids the post-merge committed records are exactly
the pointwise flagging of the originals. -/
theorem mergedCommittedRecords_eq (dl : List DisplayTransaction)
    (reqs : List PendingRequest) (h : ((dl.map (fun t => t.id)).Nodup)) :
    mergedCommittedRecords dl reqs = dl.map (fun t => flagFold t reqs) := by
  unfold mergedCommittedRecords
  rw [mergeForEvent_eq_append dl reqs h]
  rw [show dl.length = (dl.map (fun t => flagFold t reqs)).length from
    (List.length_map dl _).symm]
  exact List.take_left _ _

theorem getLast?_cons_of_ne_nil {α : Type} (a : α) {l : List α}
    (h : l ≠ []) : (a :: l).getLast? = l.getLast? := by
  cases l with
  | nil => exact absurd rfl h
  | cons b bs => exact List.getLast?_cons_cons

/-- `flagFold` computes `flagSpec`: the last addressing request wins the
flags, and the last addressing update wins `_pendingData`. -/
theorem flagFold_eq_flagSpec (reqs : List PendingRequest) :
    ∀ t : DisplayTransaction, flagFold t reqs = flagSpec t reqs := by
  induction reqs with
  | nil =>
    intro t
    simp [flagFold, flagSpec]
  | cons r rs ih =>
    intro t
    have h0 : flagFold t (r :: rs) = flagFold (flagStep t r) rs := rfl
    rw [h0, ih]
    by_cases htar : targetsId r t.id = true
    · cases hty : r.type with
      | create_event => simp [targetsId, hty] at htar
      | delete_event => simp [targetsId, hty] at htar
      | add_transaction => simp [targetsId, hty] at htar
      | update_transaction =>
        cases htx : r.data.transaction with
        | none => simp [targetsId, hty, htx] at htar
        | some tx =>
          have hid : (t.id == tx.id) = true := by
            simpa [targetsId, hty, htx] using htar
          have hstep : flagStep t r = flagUpdate r tx t := by
            simp [flagStep, hty, htx, hid]
          rw [hstep]
          have hupd : updEntry t.id r = some tx := by
            simp [updEntry, hty, htx, hid]
          cases hrs : (rs.filter (fun q => targetsId q t.id)).getLast? with
          | none =>
            have hemp : rs.filter (fun q => targetsId q t.id) = [] :=
              List.getLast?_eq_none_iff.1 hrs
            have hnone : ∀ q ∈ rs, targetsId q t.id = false := by
              intro q hq
              have := List.filter_eq_nil_iff.1 hemp q hq
              simpa using this
            have hfm : rs.filterMap (updEntry t.id) = [] :=
              List.filterMap_eq_nil_iff.2
                (fun q hq => updEntry_of_not_targets (hnone q hq))
            simp only [flagSpec, applyLast, lastUpdTx, flagUpdate, List.filter_cons,
              htar, if_true, hemp, hrs, List.filterMap_cons, hupd, hfm,
              List.getLast?_singleton, List.getLast?_nil, pendActionOf, hty]
          | some r2 =>
            have hne : rs.filter (fun q => targetsId q t.id) ≠ [] := by
              intro hc
              rw [hc] at hrs
              exact Option.noConfusion hrs
            have hcons : ((r :: rs).filter
                (fun q => targetsId q t.id)).getLast? = some r2 := by
              rw [List.filter_cons, if_pos htar, getLast?_cons_of_ne_nil r hne]
              exact hrs
            cases hlu : (rs.filterMap (updEntry t.id)).getLast? with
            | none =>
              have hfm : rs.filterMap (updEntry t.id) = [] :=
                List.getLast?_eq_none_iff.1 hlu
              simp only [flagSpec, applyLast, lastUpdTx, flagUpdate, hrs, hcons,
                List.filterMap_cons, hupd, hfm, List.getLast?_singleton,
                List.getLast?_nil, pendActionOf, hty]
            | some tx2 =>
              have hfmne : rs.filterMap (updEntry t.id) ≠ [] := by
                intro hc
                rw [hc] at hlu
                exact Option.noConfusion hlu
              have hllu : ((r :: rs).filterMap (updEntry t.id)).getLast?
                  = some tx2 := by
                rw [List.filterMap_cons, hupd,
                  getLast?_cons_of_ne_nil tx hfmne]
                exact hlu
              simp only [flagSpec, applyLast, lastUpdTx, flagUpdate, hrs, hcons, hlu,
                hllu]
      | delete_transaction =>
        cases hti : r.data.transactionId with
        | none => simp [targetsId, hty, hti] at htar
        | some i =>
          have hid : (t.id == i) = true := by
            simpa [targetsId, hty, hti] using htar
          have hstep : flagStep t r = flagDelete r t := by
            simp [flagStep, hty, hti, hid]
          rw [hstep]
          have hupd : updEntry t.id r = none := by
            simp [updEntry, hty]
          cases hrs : (rs.filter (fun q => targetsId q t.id)).getLast? with
          | none =>
            have hemp : rs.filter (fun q => targetsId q t.id) = [] :=
              List.getLast?_eq_none_iff.1 hrs
            have hnone : ∀ q ∈ rs, targetsId q t.id = false := by
              intro q hq
              have := List.filter_eq_nil_iff.1 hemp q hq
              simpa using this
            have hfm : rs.filterMap (updEntry t.id) = [] :=
              List.filterMap_eq_nil_iff.2
                (fun q hq => updEntry_of_not_targets (hnone q hq))
            simp only [flagSpec, applyLast, lastUpdTx, flagDelete, pendActionOf, hty,
              List.filter_cons, htar, if_true, hemp, hrs,
              List.filterMap_cons, hupd, hfm, List.getLast?_singleton,
              List.getLast?_nil]
          | some r2 =>
            have hne : rs.filter (fun q => targetsId q t.id) ≠ [] := by
              intro hc
              rw [hc] at hrs
              exact Option.noConfusion hrs
            have hcons : ((r :: rs).filter
                (fun q => targetsId q t.id)).getLast? = some r2 := by
              rw [List.filter_cons, if_pos htar, getLast?_cons_of_ne_nil r hne]
              exact hrs
            have hllu : ((r :: rs).filterMap (updEntry t.id)).getLast?
                = (rs.filterMap (updEntry t.id)).getLast? := by
              rw [List.filterMap_cons, hupd]
            cases hlu : (rs.filterMap (updEntry t.id)).getLast? with
            | none =>
              simp only [flagSpec, applyLast, lastUpdTx, flagDelete, hrs, hcons, hllu,
                hlu]
            | some tx2 =>
              simp only [flagSpec, applyLast, lastUpdTx, flagDelete, hrs, hcons, hllu,
                hlu]
    · have hf : targetsId r t.id = false := by
        rwa [Bool.not_eq_true] at htar
      rw [flagStep_of_not_targets hf]
      have hffil : (r :: rs).filter (fun q => targetsId q t.id)
          = rs.filter (fun q => targetsId q t.id) := by
        rw [List.filter_cons, if_neg (by simp [hf])]
      have hffm : (r :: rs).filterMap (updEntry t.id)
          = rs.filterMap (updEntry t.id) := by
        rw [List.filterMap_cons, updEntry_of_not_targets hf]
      simp only [flagSpec, lastUpdTx, hffil, hffm]

theorem flagSpec_idem (t : DisplayTransaction) (reqs : List PendingRequest) :
    flagSpec (flagSpec t reqs) reqs = flagSpec t reqs := by
  cases hl : (reqs.filter (fun q => targetsId q t.id)).getLast? with
  | none =>
    have h1 : flagSpec t reqs = t := by
      unfold flagSpec
      rw [hl]
    rw [h1]
    exact h1
  | some r =>
    cases hlu : lastUpdTx t.id reqs with
    | none =>
      have h1 : flagSpec t reqs = applyLast t r t.pendingData := by
        unfold flagSpec
        rw [hl, hlu]
      rw [h1]
      have hl1 : (reqs.filter (fun q => targetsId q
          (applyLast t r t.pendingData).id)).getLast? = some r := hl
      have hlu1 : lastUpdTx (applyLast t r t.pendingData).id reqs = none := hlu
      unfold flagSpec
      rw [hl1, hlu1]
      simp [applyLast]
    | some tx =>
      have h1 : flagSpec t reqs = applyLast t r (some tx) := by
        unfold flagSpec
        rw [hl, hlu]
      rw [h1]
      have hl1 : (reqs.filter (fun q => targetsId q
          (applyLast t r (some tx)).id)).getLast? = some r := hl
      have hlu1 : lastUpdTx (applyLast t r (some tx)).id reqs = some tx := hlu
      unfold flagSpec
      rw [hl1, hlu1]
      simp [applyLast]

theorem flagFold_idem (t : DisplayTransaction) (reqs : List PendingRequest) :
    flagFold (flagFold t reqs) reqs = flagFold t reqs := by
  rw [flagFold_eq_flagSpec reqs t]
  rw [flagFold_eq_flagSpec reqs (flagSpec t reqs)]
  exact flagSpec_idem t reqs

/-- Re-running the merge on the already-flagged committed records reproduces
the same merged view. -/
theorem mergeForEvent_idem (dl : List DisplayTransaction)
    (reqs : List PendingRequest) (h : ((dl.map (fun t => t.id)).Nodup)) :
    mergeForEvent (mergedCommittedRecords dl reqs) reqs
      = mergeForEvent dl reqs := by
  rw [mergedCommittedRecords_eq dl reqs h]
  have hids : ((dl.map (fun t => flagFold t reqs)).map (fun t => t.id))
      = dl.map (fun t => t.id) := by
    rw [List.map_map]
    exact List.map_congr_left (fun t _ => by
      simp only [Function.comp_apply]
      exact flagFold_id reqs t)
  have hnd2 : (((dl.map (fun t => flagFold t reqs)).map
      (fun t => t.id))).Nodup := by
    rw [hids]; exact h
  rw [mergeForEvent_eq_append _ reqs hnd2, mergeForEvent_eq_append dl reqs h,
    hids]
  congr 1
  rw [List.map_map]
  exact List.map_congr_left (fun t _ => by
    simp only [Function.comp_apply]
    exact flagFold_idem t reqs)

theorem modifyFirst_map_invariant {α β : Type} (p : α → Bool) (f : α → α)
    (g : α → β) (hg : ∀ x, g (f x) = g x) :
    ∀ l : List α, (modifyFirst p f l).map g = l.map g := by
  intro l
  induction l with
  | nil => rfl
  | cons a as ih =>
    by_cases hp : p a
    · simp [modifyFirst, hp, hg]
    · simp [modifyFirst, hp, ih]

theorem eraseP_eq_filter_of_nodup {α : Type} (key : α → String) (x : String)
    (l : List α) (h : (l.map key).Nodup) :
    l.eraseP (fun r => key r == x) = l.filter (fun r => !(key r == x)) := by
  induction l with
  | nil => rfl
  | cons a as ih =>
    simp only [List.map_cons, List.nodup_cons] at h
    by_cases hx : key a = x
    · have hba : (key a == x) = true := by simp [hx]
      have hother : ∀ t ∈ as, (!(key t == x)) = true := by
        intro t ht
        simp only [Bool.not_eq_true', beq_eq_false_iff_ne]
        intro hc
        exact h.1 (by
          have : key a ∈ as.map key := by
            rw [hx, ← hc]
            exact List.mem_map_of_mem key ht
          exact this)
      rw [List.eraseP_cons, hba, List.filter_cons]
      simp only [hba, Bool.not_true, Bool.false_eq_true, if_false, cond_true]
      exact (List.filter_eq_self.2 hother).symm
    · have hba : (key a == x) = false := by simp [hx]
      rw [List.eraseP_cons, hba, List.filter_cons]
      simp only [hba, Bool.not_false, if_true, cond_false]
      rw [ih h.2]

theorem find?_eq_of_nodup {α : Type} (key : α → String) (k : String) :
    ∀ {l : List α} {x : α}, ((l.map key).Nodup) → x ∈ l → key x = k →
      l.find? (fun y => key y == k) = some x := by
  intro l
  induction l with
  | nil => intro x _ hx; cases hx
  | cons a as ih =>
    intro x h hx hk
    simp only [List.map_cons, List.nodup_cons] at h
    rcases List.mem_cons.1 hx with rfl | hx2
    · exact List.find?_cons_of_pos (p := fun y => key y == k) _ (by simp [hk])
    · have hpa : ¬((fun y => key y == k) a = true) := by
        simp only [beq_iff_eq]
        intro hc
        exact h.1 (by
          have : key a ∈ as.map key := by
            rw [hc, ← hk]
            exact List.mem_map_of_mem key hx2
          exact this)
      rw [List.find?_cons_of_neg (p := fun y => key y == k) _ hpa]
      exact ih h.2 hx2 hk

theorem modifyFirst_eq_self_of_find? {α : Type} (p : α → Bool) (f : α → α) :
    ∀ {l : List α} {x : α}, l.find? p = some x → f x = x →
      modifyFirst p f l = l := by
  intro l
  induction l with
  | nil => intro x hf; simp at hf
  | cons a as ih =>
    intro x hf hfx
    by_cases hp : p a
    · rw [List.find?_cons_of_pos (p := p) _ hp] at hf
      injection hf with hax
      subst hax
      simp [modifyFirst, hp, hfx]
    · rw [List.find?_cons_of_neg (p := p) _ hp] at hf
      simp [modifyFirst, hp, ih hf hfx]

theorem modifyFirst_getElem {α : Type} (p : α → Bool) (f : α → α) :
    ∀ (l : List α) (j : Nat) (x : α),
      l[j]? = some x → p x = true →
      (∀ k, k < j → ∀ y, l[k]? = some y → p y = false) →
      (modifyFirst p f l).length = l.length
      ∧ (modifyFirst p f l)[j]? = some (f x)
      ∧ ∀ k, k ≠ j → (modifyFirst p f l)[k]? = l[k]? := by
  intro l
  induction l with
  | nil => intro j x hx; simp at hx
  | cons a as ih =>
    intro j x hx hpx hfirst
    cases j with
    | zero =>
      obtain rfl : a = x := by simpa using hx
      refine ⟨?_, ?_, ?_⟩
      · simp [modifyFirst, hpx]
      · simp [modifyFirst, hpx]
      · intro k hk
        cases k with
        | zero => exact absurd rfl hk
        | succ k2 => simp [modifyFirst, hpx]
    | succ j2 =>
      have hpa : p a = false :=
        hfirst 0 (Nat.succ_pos j2) a (by simp)
      have hx2 : as[j2]? = some x := by simpa using hx
      have hfirst2 : ∀ k, k < j2 → ∀ y, as[k]? = some y → p y = false := by
        intro k hk y hy
        exact hfirst (k + 1) (Nat.succ_lt_succ hk) y (by simpa using hy)
      obtain ⟨hlen, hget, hother⟩ := ih j2 x hx2 hpx hfirst2
      have hpaneg : ¬(p a = true) := by simp [hpa]
      refine ⟨?_, ?_, ?_⟩
      · simp [modifyFirst, hpaneg, hlen]
      · simp [modifyFirst, hpaneg, hget]
      · intro k hk
        cases k with
        | zero => simp [modifyFirst, hpaneg]
        | succ k2 =>
          have : k2 ≠ j2 := fun hc => hk (by rw [hc])
          simp [modifyFirst, hpaneg, hother k2 this]

/-! ### Claim theorems -/

/-- Claim C1, counterexample: the merge does not sort the pending requests by
creation timestamp.  Two update requests both address transaction `"a"`;
`cexUpd1` was submitted at the earlier timestamp (`t1 < t2`), yet when the
queue returns the requests in the order `[cexUpd2, cexUpd1]` the merged view
shows the overlay of `cexUpd1` (the request processed last in array order),
not that of the later-submitted `cexUpd2` — refuting the claim that the
request submitted at `t2` always wins. -/
theorem merge_timestamp_order_cex :
    cexUpd1.timestamp.data < cexUpd2.timestamp.data
    ∧ targetsId cexUpd1 "a" = true
    ∧ targetsId cexUpd2 "a" = true
    ∧ (mergeForEvent [wrapTx cexTxA] [cexUpd2, cexUpd1]).map
        (fun t => (t.requestId, t.pendingData))
      = [(some "r1", some cexTx1)]
    ∧ cexTx1 ≠ cexTx2 := by
  refine ⟨by decide, by decide, by decide, by decide, by decide⟩

/-- Claim C1 (amended): the merge processes the requests in the array order
the queue returned them, without sorting by timestamp; whenever several
requests address the same committed transaction id, the request processed
last in that order determines the displayed overlay.  Concretely, if an
update request `u` addressing an existing committed id is followed only by
requests that do not address that id, the merged committed record for that
id carries exactly `u`'s overlay. -/
theorem merge_last_in_order_wins (dl : List DisplayTransaction)
    (pre post : List PendingRequest) (u : PendingRequest) (utx : Transaction)
    (hnd : ((dl.map (fun t => t.id)).Nodup))
    (hty : u.type = RequestType.update_transaction)
    (htx : u.data.transaction = some utx)
    (hmem : utx.id ∈ dl.map (fun t => t.id))
    (hpost : ∀ r ∈ post, targetsId r utx.id = false) :
    ∃ t ∈ mergedCommittedRecords dl (pre ++ u :: post),
      t.id = utx.id ∧ t.isPending = true
      ∧ t.pendingAction = some PendingAction.update
      ∧ t.pendingData = some utx
      ∧ t.requestId = some u.id
      ∧ t.fullRequest = some u := by
  obtain ⟨t0, ht0mem, ht0id⟩ := List.mem_map.1 hmem
  have hu : targetsId u t0.id = true := by
    simp [targetsId, hty, htx, ht0id]
  have hfpost : post.filter (fun q => targetsId q t0.id) = [] := by
    rw [List.filter_eq_nil_iff]
    intro q hq
    simp [ht0id, hpost q hq]
  have hfl : ((pre ++ u :: post).filter
      (fun q => targetsId q t0.id)).getLast? = some u := by
    rw [List.filter_append, List.filter_cons, if_pos hu, hfpost]
    exact List.getLast?_concat _
  have hupdu : updEntry t0.id u = some utx := by
    simp [updEntry, hty, htx, ht0id]
  have hfmpost : post.filterMap (updEntry t0.id) = [] := by
    rw [List.filterMap_eq_nil_iff]
    intro q hq
    apply updEntry_of_not_targets
    rw [ht0id]
    exact hpost q hq
  have hlast : lastUpdTx t0.id (pre ++ u :: post) = some utx := by
    unfold lastUpdTx
    rw [List.filterMap_append, List.filterMap_cons, hupdu, hfmpost]
    exact List.getLast?_concat _
  have hspec : flagSpec t0 (pre ++ u :: post) = applyLast t0 u (some utx) := by
    unfold flagSpec
    rw [hfl, hlast]
  rw [mergedCommittedRecords_eq dl _ hnd]
  refine ⟨flagFold t0 (pre ++ u :: post),
    List.mem_map_of_mem _ ht0mem, ?_⟩
  rw [flagFold_eq_flagSpec, hspec]
  refine ⟨?_, rfl, ?_, rfl, rfl, rfl⟩
  · simpa [applyLast] using ht0id
  · simp [applyLast, pendActionOf, hty]

/-- Claim C1 (amended), witness: with the queue in insertion order
`[cexUpd1, cexUpd2]` the later-submitted `cexUpd2` does win the overlay. -/
theorem merge_last_in_order_wins_witness :
    ∃ t ∈ mergedCommittedRecords [wrapTx cexTxA] ([cexUpd1] ++ cexUpd2 :: []),
      t.id = cexTx2.id ∧ t.isPending = true
      ∧ t.pendingAction = some PendingAction.update
      ∧ t.pendingData = some cexTx2
      ∧ t.requestId = some cexUpd2.id
      ∧ t.fullRequest = some cexUpd2 :=
  merge_last_in_order_wins [wrapTx cexTxA] [cexUpd1] [] cexUpd2 cexTx2
    (by decide) (by decide) (by decide) (by decide) (by simp)

/-- Claim C2, counterexample: merging is not free of effects on `E`.  The
merged list shares the committed record objects with `data.transactions`
(the spread `[...data.transactions]` is shallow), and the update request
flags the record in place, so after the merge the event's committed
transaction record differs from what it was before. -/
theorem merge_mutates_committed_cex :
    mergedCommittedRecords [wrapTx cexTxA] [cexUpd1] ≠ [wrapTx cexTxA] := by
  decide

/-- Claim C2 (amended): the merge never calls the committed store or the
request queue and is idempotent — re-running it over the already-flagged
committed records yields the identical merged view — and it leaves every
committed field (id, name, amount, type, image, date, description) of every
committed record unchanged; but it does mutate the in-memory committed
records themselves, by setting the pending-annotation fields on any record
addressed by an update or delete request. -/
theorem merge_pure_projection (dl : List DisplayTransaction)
    (reqs : List PendingRequest)
    (hnd : ((dl.map (fun t => t.id)).Nodup)) :
    (mergedCommittedRecords dl reqs).map committedPart = dl.map committedPart
    ∧ mergeForEvent (mergedCommittedRecords dl reqs) reqs
        = mergeForEvent dl reqs := by
  constructor
  · rw [mergedCommittedRecords_eq dl reqs hnd, List.map_map]
    exact List.map_congr_left (fun t _ => by
      simp only [Function.comp_apply]
      exact flagFold_committedPart reqs t)
  · exact mergeForEvent_idem dl reqs hnd

/-- Claim C2 (amended), witness at a concrete event and request set. -/
theorem merge_pure_projection_witness :
    (mergedCommittedRecords [wrapTx cexTxA] [cexUpd1]).map committedPart
      = [wrapTx cexTxA].map committedPart
    ∧ mergeForEvent (mergedCommittedRecords [wrapTx cexTxA] [cexUpd1])
        [cexUpd1]
      = mergeForEvent [wrapTx cexTxA] [cexUpd1] :=
  merge_pure_projection [wrapTx cexTxA] [cexUpd1] (by decide)

/-- Claim C9: an `update_transaction` or `delete_transaction` request whose
target id does not occur in the view merged so far (neither among the
committed transactions nor among earlier pending adds) is silently skipped:
the merged view with the request equals the merged view without it. -/
theorem merge_skips_orphan (dl : List DisplayTransaction)
    (pre post : List PendingRequest) (r : PendingRequest) (x : String)
    (htgt : reqTargetId r = some x)
    (horphan : x ∉ (mergeForEvent dl pre).map (fun t => t.id)) :
    mergeForEvent dl (pre ++ r :: post) = mergeForEvent dl (pre ++ post) := by
  have h1 : mergeForEvent dl (pre ++ r :: post)
      = List.foldl mergeStep (mergeStep (mergeForEvent dl pre) r) post := by
    unfold mergeForEvent
    rw [List.foldl_append]
    rfl
  have h2 : mergeForEvent dl (pre ++ post)
      = List.foldl mergeStep (mergeForEvent dl pre) post := by
    unfold mergeForEvent
    rw [List.foldl_append]
  rw [h1, h2]
  congr 1
  cases hty : r.type
  case create_event => simp [reqTargetId, hty] at htgt
  case delete_event => simp [reqTargetId, hty] at htgt
  case add_transaction => simp [reqTargetId, hty] at htgt
  case update_transaction =>
    cases htx : r.data.transaction with
    | none => simp [reqTargetId, hty, htx] at htgt
    | some tx =>
      have htxid : tx.id = x := by
        simpa [reqTargetId, hty, htx] using htgt
      have hany : ((mergeForEvent dl pre).any
          fun t => t.id == tx.id) = false := by
        rw [← Bool.not_eq_true]
        intro hc
        exact horphan (htxid ▸ (any_id_eq_mem _ _ _).1 hc)
      simp only [mergeStep, hty, htx]
      exact modifyFirst_eq_self _ _ _ hany
  case delete_transaction =>
    cases hti : r.data.transactionId with
    | none => simp [reqTargetId, hty, hti] at htgt
    | some i =>
      have htxid : i = x := by
        simpa [reqTargetId, hty, hti] using htgt
      have hany : ((mergeForEvent dl pre).any
          fun t => t.id == i) = false := by
        rw [← Bool.not_eq_true]
        intro hc
        exact horphan (htxid ▸ (any_id_eq_mem _ _ _).1 hc)
      simp only [mergeStep, hty, hti]
      exact modifyFirst_eq_self _ _ _ hany

/-- Claim C9, witness: an update addressing the unknown id `"zz"` leaves the
merged view of the event exactly as if it had not been submitted. -/
theorem merge_skips_orphan_witness :
    mergeForEvent [wrapTx cexTxA] ([] ++ cexOrphan :: [cexUpd1])
      = mergeForEvent [wrapTx cexTxA] ([] ++ [cexUpd1]) :=
  merge_skips_orphan [wrapTx cexTxA] [] [cexUpd1] cexOrphan "zz"
    (by decide) (by decide)

/-- Claim C3: editing a still-pending request never changes its kind
(`type`) or `requestedBy` — those of every request in the queue are exactly
as before — and the edited request now carries the new payload, the new
description, the new timestamp, and `isRead = false`.  (The route
`PUT /api/requests/:id` is in src; the update body it receives is modelled
from the spec, §4.3, since the client `updateRequest` of services/db is not
part of src.) -/
theorem editPending_preserves_identity (s : ServerState) (requestId : String)
    (newData : RequestData) (newDescription newTimestamp : String)
    (r : PendingRequest)
    (hnd : ((s.requests.map (fun q => q.id)).Nodup))
    (hmem : r ∈ s.requests) (hid : r.id = requestId) :
    ((editPending s requestId newData newDescription newTimestamp).requests.map
        (fun q => (q.type, q.requestedBy)))
      = s.requests.map (fun q => (q.type, q.requestedBy))
    ∧ editedRequest r newData newDescription newTimestamp
        ∈ (editPending s requestId newData newDescription
            newTimestamp).requests
    ∧ (editedRequest r newData newDescription newTimestamp).type = r.type
    ∧ (editedRequest r newData newDescription
        newTimestamp).requestedBy = r.requestedBy
    ∧ (editedRequest r newData newDescription
        newTimestamp).data = newData
    ∧ (editedRequest r newData newDescription
        newTimestamp).description = newDescription
    ∧ (editedRequest r newData newDescription
        newTimestamp).timestamp = newTimestamp
    ∧ (editedRequest r newData newDescription
        newTimestamp).isRead = false := by
  refine ⟨?_, ?_, rfl, rfl, rfl, rfl, rfl, rfl⟩
  · exact modifyFirst_map_invariant (fun q => q.id == requestId)
      (fun q => editedRequest q newData newDescription newTimestamp)
      (fun q => (q.type, q.requestedBy)) (fun x => rfl) s.requests
  · have hreq : (editPending s requestId newData newDescription
        newTimestamp).requests
        = s.requests.map (fun q => if q.id == requestId
            then editedRequest q newData newDescription newTimestamp
            else q) :=
      modifyFirst_eq_map_of_nodup (fun q : PendingRequest => q.id) requestId
        (fun q => editedRequest q newData newDescription newTimestamp)
        s.requests hnd
    rw [hreq]
    have himg : (if r.id == requestId
        then editedRequest r newData newDescription newTimestamp else r)
        = editedRequest r newData newDescription newTimestamp := by
      simp [hid]
    exact himg ▸ List.mem_map_of_mem _ hmem

/-- Claim C3, witness at the concrete queue. -/
theorem editPending_preserves_identity_witness :
    ((editPending cexState "r1" (updPayload cexTx2) "new desc"
        "2024-02-01T00:00:00").requests.map
        (fun q => (q.type, q.requestedBy)))
      = cexState.requests.map (fun q => (q.type, q.requestedBy))
    ∧ editedRequest cexUpd1 (updPayload cexTx2) "new desc"
        "2024-02-01T00:00:00"
        ∈ (editPending cexState "r1" (updPayload cexTx2) "new desc"
            "2024-02-01T00:00:00").requests
    ∧ (editedRequest cexUpd1 (updPayload cexTx2) "new desc"
        "2024-02-01T00:00:00").type = cexUpd1.type
    ∧ (editedRequest cexUpd1 (updPayload cexTx2) "new desc"
        "2024-02-01T00:00:00").requestedBy = cexUpd1.requestedBy
    ∧ (editedRequest cexUpd1 (updPayload cexTx2) "new desc"
        "2024-02-01T00:00:00").data = updPayload cexTx2
    ∧ (editedRequest cexUpd1 (updPayload cexTx2) "new desc"
        "2024-02-01T00:00:00").description = "new desc"
    ∧ (editedRequest cexUpd1 (updPayload cexTx2) "new desc"
        "2024-02-01T00:00:00").timestamp = "2024-02-01T00:00:00"
    ∧ (editedRequest cexUpd1 (updPayload cexTx2) "new desc"
        "2024-02-01T00:00:00").isRead = false :=
  editPending_preserves_identity cexState "r1" (updPayload cexTx2)
    "new desc" "2024-02-01T00:00:00" cexUpd1 (by decide) (by decide)
    (by decide)

/-- Claim C4: rejecting or cancelling a pending request
(`DELETE /api/requests/:id`) removes exactly the request with that id from
the queue and leaves the committed store — the full event list, with every
event and transaction — byte-for-byte unchanged. -/
theorem deleteRequest_frame (s : ServerState) (requestId : String)
    (hnd : ((s.requests.map (fun r => r.id)).Nodup)) :
    (deleteRequest s requestId).events = s.events
    ∧ (deleteRequest s requestId).requests
        = s.requests.filter (fun r => !(r.id == requestId)) :=
  ⟨rfl, eraseP_eq_filter_of_nodup (fun r : PendingRequest => r.id) requestId
    s.requests hnd⟩

/-- Claim C4, witness: rejecting `"r1"` in the concrete state. -/
theorem deleteRequest_frame_witness :
    (deleteRequest cexState "r1").events = cexState.events
    ∧ (deleteRequest cexState "r1").requests
        = cexState.requests.filter (fun r => !(r.id == "r1")) :=
  deleteRequest_frame cexState "r1" (by decide)

/-- Claim C7: after `markAllRead` the unread count is 0, and creating one
new request (born unread: the client sends no `isRead`, so the schema
default `false` applies) increments the count by exactly 1.
(`unreadCount` itself is modelled from the spec, §4.4: the count of requests
with unread = true, i.e. `isRead = false`; the client-side
`getUnreadRequestCount` of services/db is not part of src.) -/
theorem unread_count_tracking (s : ServerState) (r : PendingRequest) :
    unreadCount (markAllRead s) = 0
    ∧ unreadCount (createRequest (markAllRead s) r)
        = unreadCount (markAllRead s) + 1 := by
  constructor
  · unfold unreadCount markAllRead
    simp [List.filter_map, Function.comp]
  · unfold unreadCount createRequest
    rw [List.filter_append, List.length_append]
    simp

/-- Claim C8: the displayed event balance is computed from the committed
(non-pending-add) entries only, as collections minus expenses with loans
excluded: whenever the committed collections sum to 1500, the committed
expenses to 400 and the committed loans to 200, the balance is 1100 — and a
pending `add` entry never changes the balance. -/
theorem balance_from_committed (l : List DisplayTransaction)
    (hc : evColl l = 1500) (he : evExp l = 400) (_hl : evLoan l = 200) :
    evBal l = 1100
    ∧ (∀ t : DisplayTransaction, t.isPending = true →
        t.pendingAction = some PendingAction.add →
        evBal (t :: l) = evBal l) := by
  constructor
  · unfold evBal
    rw [hc, he]
    rfl
  · intro t hp ha
    have hfil : committedTx (t :: l) = committedTx l := by
      unfold committedTx
      rw [List.filter_cons]
      simp [hp, ha]
    unfold evBal evColl evExp
    rw [hfil]

/-- Claim C8, witness: a concrete display list with collections
1000 + 500, expense 400, loan 200 and a pending 999 add. -/
theorem balance_from_committed_witness :
    evBal cexStatsList = 1100
    ∧ (∀ t : DisplayTransaction, t.isPending = true →
        t.pendingAction = some PendingAction.add →
        evBal (t :: cexStatsList) = evBal cexStatsList) :=
  balance_from_committed cexStatsList (by decide) (by decide) (by decide)

/-- Claim C5, counterexample: when the target transaction id is absent, the
`PUT /api/events/:id/transactions/:txId` route is indeed a no-op on the
store, but it answers the very same `{success: true}` it answers when the
transaction exists and the update is applied — the caller is *not* told that
the operation did not apply, refuting the "reported as a soft failure"
clause.  Here `"zz"` matches no transaction of event `"e1"`, while `"a"`
does. -/
theorem replace_soft_failure_cex :
    (replaceTransaction cexState "e1" "zz" cexBody).1 = cexState
    ∧ (replaceTransaction cexState "e1" "zz" cexBody).2 = RouteResult.success
    ∧ (replaceTransaction cexState "e1" "a" cexBody).1 ≠ cexState
    ∧ (replaceTransaction cexState "e1" "a" cexBody).2
        = RouteResult.success := by
  refine ⟨by decide, by decide, by decide, by decide⟩

/-- Claim C5 (amended): when no transaction of the addressed event carries
the target id, `replaceTransaction` is a no-op — the state, and in
particular the event's transaction list, is unchanged — but the caller
receives the same `{success: true}` response as for an applied update; the
soft failure is not reported. -/
theorem replace_absent_tx_noop (s : ServerState) (eventId txId : String)
    (b : TxUpdateBody) (e : EventData)
    (hfind : s.events.find? (fun ev => ev.id == eventId) = some e)
    (habs : ∀ t ∈ e.transactions, t.id ≠ txId) :
    replaceTransaction s eventId txId b = (s, RouteResult.success) := by
  have hany : (e.transactions.any fun t => t.id == txId) = false := by
    rw [← Bool.not_eq_true]
    intro hc
    obtain ⟨t, ht, hbeq⟩ := List.any_eq_true.1 hc
    exact habs t ht (by simpa using hbeq)
  have hfix : replaceTxInEvent e txId b = e := by
    unfold replaceTxInEvent
    rw [modifyFirst_eq_self _ _ _ hany]
  have hmf : modifyFirst (fun ev => ev.id == eventId)
      (fun ev => replaceTxInEvent ev txId b) s.events = s.events :=
    modifyFirst_eq_self_of_find? _ _ hfind hfix
  simp only [replaceTransaction, hfind, hmf]

/-- Claim C5 (amended), witness: replacing the absent id `"zz"` in event
`"e1"` of the concrete state. -/
theorem replace_absent_tx_noop_witness :
    replaceTransaction cexState "e1" "zz" cexBody
      = (cexState, RouteResult.success) :=
  replace_absent_tx_noop cexState "e1" "zz" cexBody cexEvent (by decide)
    (by decide)

/-- Claim C6: approving a `delete_event` request (`setDeleted`, i.e.
`PUT /api/events/:id/delete`) removes the event from the non-deleted listing
while it still appears in the deleted listing; a subsequent `purgeEvent`
(`DELETE /api/events/:id`) removes it from both listings and releases
exactly the images of the transactions the event held (a Cloudinary destroy
for every transaction with an extractable Cloudinary receipt URL). -/
theorem delete_event_lifecycle (s : ServerState) (eventId : String)
    (e : EventData) (hnd : ((s.events.map (fun ev => ev.id)).Nodup))
    (hmem : e ∈ s.events) (hid : e.id = eventId) :
    (∀ ev ∈ findEvents (softDeleteEvent s eventId) false, ev.id ≠ eventId)
    ∧ (∃ ev ∈ findEvents (softDeleteEvent s eventId) true, ev.id = eventId)
    ∧ (∀ b : Bool, ∀ ev ∈ findEvents
        (purgeEvent (softDeleteEvent s eventId) eventId).1 b,
        ev.id ≠ eventId)
    ∧ (purgeEvent (softDeleteEvent s eventId) eventId).2
        = releasedImages e := by
  have hset : (softDeleteEvent s eventId).events
      = s.events.map (fun ev => if ev.id == eventId
          then { ev with isDeleted := true } else ev) :=
    modifyFirst_eq_map_of_nodup (fun ev : EventData => ev.id) eventId
      (fun ev => { ev with isDeleted := true }) s.events hnd
  have hidseq : ((s.events.map (fun ev => if ev.id == eventId
      then { ev with isDeleted := true } else ev)).map (fun ev => ev.id))
      = s.events.map (fun ev => ev.id) := by
    rw [List.map_map]
    exact List.map_congr_left (fun ev _ => by
      by_cases hc : ev.id = eventId <;> simp [hc])
  have hnd1 : (((softDeleteEvent s eventId).events.map
      (fun ev => ev.id))).Nodup := by
    rw [hset, hidseq]
    exact hnd
  have himg : (if e.id == eventId
      then ({ e with isDeleted := true } : EventData) else e)
      = { e with isDeleted := true } := by
    simp [hid]
  have hfind : (softDeleteEvent s eventId).events.find?
      (fun ev => ev.id == eventId) = some { e with isDeleted := true } := by
    rw [hset]
    refine find?_eq_of_nodup (fun ev : EventData => ev.id) eventId
      (by rw [hidseq]; exact hnd) ?_ (by simp [hid])
    rw [← himg]
    exact List.mem_map_of_mem _ hmem
  have hpurge1 : (purgeEvent (softDeleteEvent s eventId) eventId).1.events
      = (softDeleteEvent s eventId).events.eraseP
          (fun ev => ev.id == eventId) := by
    unfold purgeEvent
    rw [hfind]
  have hpurge2 : (purgeEvent (softDeleteEvent s eventId) eventId).2
      = releasedImages { e with isDeleted := true } := by
    unfold purgeEvent
    rw [hfind]
  refine ⟨?_, ?_, ?_, ?_⟩
  · intro ev hev
    obtain ⟨hmem2, hdel⟩ := List.mem_filter.1 hev
    rw [hset] at hmem2
    obtain ⟨ev0, hev0, heq⟩ := List.mem_map.1 hmem2
    by_cases hc : ev0.id = eventId
    · rw [if_pos (by simp [hc])] at heq
      rw [← heq] at hdel
      simp at hdel
    · rw [if_neg (by simp [hc])] at heq
      rw [← heq]
      exact hc
  · refine ⟨{ e with isDeleted := true }, ?_, by simp [hid]⟩
    apply List.mem_filter.2
    refine ⟨?_, by simp⟩
    rw [hset, ← himg]
    exact List.mem_map_of_mem _ hmem
  · intro b ev hev
    have hm := (List.mem_filter.1 hev).1
    rw [hpurge1, eraseP_eq_filter_of_nodup (fun ev : EventData => ev.id)
      eventId _ hnd1] at hm
    have hne := (List.mem_filter.1 hm).2
    simpa using hne
  · rw [hpurge2]
    rfl

/-- Claim C6, witness: the lifecycle at the concrete state; the released
list is exactly the Cloudinary public id of the receipt of transaction
`"b"`. -/
theorem delete_event_lifecycle_witness :
    (∀ ev ∈ findEvents (softDeleteEvent cexState "e1") false, ev.id ≠ "e1")
    ∧ (∃ ev ∈ findEvents (softDeleteEvent cexState "e1") true, ev.id = "e1")
    ∧ (∀ b : Bool, ∀ ev ∈ findEvents
        (purgeEvent (softDeleteEvent cexState "e1") "e1").1 b, ev.id ≠ "e1")
    ∧ (purgeEvent (softDeleteEvent cexState "e1") "e1").2
        = releasedImages cexEvent :=
  delete_event_lifecycle cexState "e1" cexEvent (by decide) (by decide)
    (by decide)

/-- Claim C10: `replaceTransaction` merges the supplied fields over the
stored record (`{...existing.toObject(), ...req.body}`) rather than
replacing it wholesale: every field absent from the update body keeps its
stored value, the record keeps its id (the body carries no id, or the target
id itself, as in the approval dispatch), it stays at its position in the
event's transaction list, and every other transaction is untouched. -/
theorem replace_merges_fields (e : EventData) (txId : String)
    (b : TxUpdateBody) (j : Nat) (tx0 : Transaction)
    (hj : e.transactions[j]? = some tx0)
    (hjid : tx0.id = txId)
    (hfirst : ∀ k, k < j → ∀ y, e.transactions[k]? = some y → y.id ≠ txId)
    (hbid : b.id = none ∨ b.id = some txId) :
    (replaceTxInEvent e txId b).transactions.length
      = e.transactions.length
    ∧ (replaceTxInEvent e txId b).transactions[j]?
        = some (applyBody tx0 b)
    ∧ (applyBody tx0 b).id = txId
    ∧ (b.name = none → (applyBody tx0 b).name = tx0.name)
    ∧ (b.amount = none → (applyBody tx0 b).amount = tx0.amount)
    ∧ (b.type = none → (applyBody tx0 b).type = tx0.type)
    ∧ (b.image = none → (applyBody tx0 b).image = tx0.image)
    ∧ (b.date = none → (applyBody tx0 b).date = tx0.date)
    ∧ (b.description = none →
        (applyBody tx0 b).description = tx0.description)
    ∧ (∀ k, k ≠ j → (replaceTxInEvent e txId b).transactions[k]?
        = e.transactions[k]?) := by
  have hp : ((fun t : Transaction => t.id == txId) tx0) = true := by
    simp [hjid]
  have hfirst2 : ∀ k, k < j → ∀ y, e.transactions[k]? = some y →
      (fun t : Transaction => t.id == txId) y = false := by
    intro k hk y hy
    rw [beq_eq_false_iff_ne]
    exact hfirst k hk y hy
  obtain ⟨hlen, hget, hother⟩ := modifyFirst_getElem
    (fun t : Transaction => t.id == txId) (fun t => applyBody t b)
    e.transactions j tx0 hj hp hfirst2
  refine ⟨hlen, hget, ?_, ?_, ?_, ?_, ?_, ?_, ?_, hother⟩
  · rcases hbid with hb | hb <;> simp [applyBody, hb, hjid]
  · intro h
    simp [applyBody, h]
  · intro h
    simp [applyBody, h]
  · intro h
    simp [applyBody, h]
  · intro h
    simp [applyBody, h]
  · intro h
    simp [applyBody, h]
  · intro h
    simp [applyBody, h]

/-- Claim C10, witness: merging `cexBody` (amount and description only) over
transaction `"a"` of the concrete event. -/
theorem replace_merges_fields_witness :
    (replaceTxInEvent cexEvent "a" cexBody).transactions.length
      = cexEvent.transactions.length
    ∧ (replaceTxInEvent cexEvent "a" cexBody).transactions[0]?
        = some (applyBody cexTxA cexBody)
    ∧ (applyBody cexTxA cexBody).id = "a"
    ∧ (cexBody.name = none →
        (applyBody cexTxA cexBody).name = cexTxA.name)
    ∧ (cexBody.amount = none →
        (applyBody cexTxA cexBody).amount = cexTxA.amount)
    ∧ (cexBody.type = none →
        (applyBody cexTxA cexBody).type = cexTxA.type)
    ∧ (cexBody.image = none →
        (applyBody cexTxA cexBody).image = cexTxA.image)
    ∧ (cexBody.date = none →
        (applyBody cexTxA cexBody).date = cexTxA.date)
    ∧ (cexBody.description = none →
        (applyBody cexTxA cexBody).description = cexTxA.description)
    ∧ (∀ k, k ≠ 0 → (replaceTxInEvent cexEvent "a" cexBody).transactions[k]?
        = cexEvent.transactions[k]?) :=
  replace_merges_fields cexEvent "a" cexBody 0 cexTxA (by decide) (by decide)
    (fun k hk => absurd hk (Nat.not_lt_zero k)) (Or.inl rfl)

end HMS
